import Mathlib

/-!
Shallow embedding of the peer-session state machine of
`src/networking/src/peer.rs` (repository lunadev-2025).

The state machine is `PeerStateMachine` with its two operations
`provide_data` and `poll`.  External effects (one-shot channels, the
bounded subscriber, the transport socket, application sinks) are modelled
by an environment snapshot passed to each call, and by an explicit list of
emitted events.  A call that would panic in Rust is modelled by `none`.

Bytes are modelled as `Nat` (the code only compares the trailing byte
against zero, so the u8 bound is irrelevant to every property proved
here).  The `FxHashMap<NonZeroU8, NetworkPublisher>` router is modelled as
an association list from channel ids to opaque publisher identifiers; the
liveness closure of a publisher is read from the environment, and invoking
its setter closure is an emitted event.
-/

/-- Modelled from the spec: the control-message enum `SpecialMessage` is
declared in `networking/src/lib.rs`, which is not among the provided
sources.  The spec (§3, §6) describes it as "a tagged enum with exactly
three variants — `Negotiate`, `Ack`, `Disconnect`". -/
inductive SpecialMessage
  | Negotiate
  | Ack
  | Disconnect
deriving DecidableEq, Repr

/-- Modelled from the spec: the external compact binary codec (§3:
"deterministic compact binary codec", §6: "deterministic tag + payload").
Each unit variant encodes to its single tag byte. -/
def bitcode_encode : SpecialMessage → List Nat
  | .Negotiate => [0]
  | .Ack => [1]
  | .Disconnect => [2]

/-- Modelled from the spec: decoding inverts `bitcode_encode` and fails on
anything that is not an exact encoding; in particular extra trailing bytes
make the decode fail, as the codec consumes its whole input. -/
def bitcode_decode : List Nat → Option SpecialMessage
  | [0] => some .Negotiate
  | [1] => some .Ack
  | [2] => some .Disconnect
  | _ => none

/-- The `Retention` verdict returned by both state-machine operations
(`peer.rs` lines 60-64). -/
inductive Retention
  | Drop
  | Retain
deriving DecidableEq, Repr

/-- Router mapping: channel id to an opaque publisher identifier, standing
for the `FxHashMap<NonZeroU8, NetworkPublisher>` of `peer.rs`.  Keys are
unique in any map produced by the code. -/
abbrev Router := List (Nat × Nat)

/-- Lookup as on the `HashMap`, on the association-list model. -/
def Router.lookup : Router → Nat → Option Nat
  | [], _ => none
  | (c, pid) :: rest, ch => if c = ch then some pid else Router.lookup rest ch

/-- Removal `Entry::Occupied(entry) => entry.remove()`: delete the entry
for a channel. -/
def Router.erase (r : Router) (ch : Nat) : Router :=
  r.filter (fun e => !(e.1 == ch))

/-- Emptiness test `FxHashMap::is_empty`. -/
def Router.routerIsEmpty (r : Router) : Bool := r.isEmpty

/-- The role-specific payload of the `AwaitingNegotiation` phase
(`peer.rs` lines 19-31).  The one-shot halves held by each variant are
probed through the environment, so only the data they carry is kept. -/
inductive AwaitingNegotiationReq
  | ServerNegotiation
  | ServerAwaitNegotiateResponse (packets_router : Router)
  | ClientNegotiation
deriving DecidableEq, Repr

/-- The peer state machine (`peer.rs` lines 33-58). -/
inductive PeerStateMachine
  | Connecting
  | AwaitingNegotiation (req : AwaitingNegotiationReq)
  | Connected (packets_router : Router)
deriving DecidableEq, Repr

/-- Observable side effects of one call. -/
inductive Event
  /-- The call `peer_sender.send(peer)` succeeded: the freshly built `NetworkPeer`
  handle was delivered to application code. -/
  | peerHandleSent
  /-- The call `client_negotiation_sender.send(())` succeeded. -/
  | clientEchoSignalled
  /-- The call `(publisher.setter)(data.into())`: bytes delivered to the sink of
  the given publisher. -/
  | setterInvoked (pid : Nat) (data : List Nat)
  /-- A `socket.send` of a buffered outbound application packet during the
  `Connected` drain loop; the flag records the transport result, which the
  code only logs. -/
  | sentPacket (payload : List Nat) (ok : Bool)
  /-- The send `socket.send(Packet::reliable_ordered(addr, bitcode::encode(..), None))`
  of the `Negotiate` control message; the flag records the transport
  result, which the code only logs. -/
  | sentNegotiate (payload : List Nat) (ok : Bool)
deriving DecidableEq, Repr

/-- Environment snapshot consulted by `provide_data`: results of the
probes the call may perform on objects whose other half is owned
elsewhere. -/
structure DataEnv where
  /-- Result of `peer_sender.is_closed()`, equivalently whether `peer_sender.send`
  would fail: the application receiver of the peer handle is gone. -/
  peerSenderClosed : Bool
  /-- Result of `client_negotiation_sender.is_closed()`, equivalently whether its
  `send(())` would fail. -/
  clientEchoClosed : Bool
  /-- Result of `(publisher.valid)()` for the publisher with the given identifier. -/
  valid : Nat → Bool

/-- Result of `negotiation_recv.try_recv()`. -/
inductive TryRecv
  | ok (packets_router : Router)
  | empty
  | closed
deriving DecidableEq, Repr

/-- Environment snapshot consulted by `poll`. -/
structure PollEnv where
  /-- Result of `peer_sender.is_closed()`. -/
  peerSenderClosed : Bool
  /-- Result of `negotiation_recv.try_recv()`. -/
  negotiation : TryRecv
  /-- Result of `client_negotiation_sender.is_closed()`. -/
  clientEchoClosed : Bool
  /-- The packets currently buffered in `packets_sub`, in the order
  `try_recv` yields them. -/
  outbound : List (List Nat)
  /-- Value of `packets_sub.get_pub_count()` after the drain loop. -/
  pubCount : Nat
  /-- Whether `socket.send` succeeds for a given payload. -/
  sendOk : List Nat → Bool

/-- The operation `PeerStateMachine::provide_data` (`peer.rs` lines 67-190), returning
the retention verdict, the state left behind in `self`, and the emitted
events.  `none` models a panic: the only panic site is
`data.last().unwrap()` (line 160), reached exactly when the payload is
empty in the `Connected` phase. -/
def provide_data (s : PeerStateMachine) (data : List Nat) (env : DataEnv) :
    Option (Retention × PeerStateMachine × List Event) :=
  match s with
  | .Connecting =>
    match bitcode_decode data with
    | some .Disconnect => some (.Drop, .Connecting, [])
    | some .Negotiate =>
      -- the transition to AwaitingNegotiation/ClientNegotiation is
      -- committed before peer_sender.send(peer) is attempted
      if env.peerSenderClosed then
        some (.Drop, .AwaitingNegotiation .ClientNegotiation, [])
      else
        some (.Retain, .AwaitingNegotiation .ClientNegotiation, [.peerHandleSent])
    | some .Ack =>
      if env.peerSenderClosed then
        some (.Drop, .Connecting, [])
      else
        some (.Retain, .Connecting, [])
    | none => some (.Retain, .Connecting, [])
  | .AwaitingNegotiation req =>
    match bitcode_decode data with
    | some .Disconnect => some (.Drop, .AwaitingNegotiation req, [])
    | some .Negotiate =>
      match req with
      | .ServerNegotiation =>
        some (.Retain, .AwaitingNegotiation .ServerNegotiation, [])
      | .ServerAwaitNegotiateResponse r =>
        if env.clientEchoClosed then
          some (.Drop, .AwaitingNegotiation (.ServerAwaitNegotiateResponse r), [])
        else
          some (.Retain, .Connected r, [.clientEchoSignalled])
      | .ClientNegotiation =>
        some (.Retain, .AwaitingNegotiation .ClientNegotiation, [])
    | some .Ack =>
      match req with
      | .ServerAwaitNegotiateResponse r =>
        if env.clientEchoClosed then
          some (.Drop, .AwaitingNegotiation (.ServerAwaitNegotiateResponse r), [])
        else
          some (.Retain, .AwaitingNegotiation (.ServerAwaitNegotiateResponse r), [])
      | _ => some (.Retain, .AwaitingNegotiation req, [])
    | none => some (.Retain, .AwaitingNegotiation req, [])
  | .Connected r =>
    match data.getLast? with
    | none => none
    | some channel =>
      let body := data.dropLast
      if channel = 0 then
        match bitcode_decode body with
        | some .Disconnect => some (.Drop, .Connected r, [])
        | _ => some (.Retain, .Connected r, [])
      else
        match r.lookup channel with
        | some pid =>
          if env.valid pid then
            some (.Retain, .Connected r, [.setterInvoked pid body])
          else
            some (.Retain, .Connected (r.erase channel), [])
        | none => some (.Retain, .Connected r, [])

/-- The operation `PeerStateMachine::poll` (`peer.rs` lines 192-277).  `poll` is total:
the only `unwrap` on its paths is on `bitcode::encode` of a unit variant,
which cannot fail. -/
def poll (s : PeerStateMachine) (env : PollEnv) :
    Retention × PeerStateMachine × List Event :=
  match s with
  | .Connecting =>
    if env.peerSenderClosed then (.Drop, .Connecting, [])
    else (.Retain, .Connecting, [])
  | .AwaitingNegotiation .ServerNegotiation =>
    match env.negotiation with
    | .ok r =>
      (.Retain, .AwaitingNegotiation (.ServerAwaitNegotiateResponse r),
        [.sentNegotiate (bitcode_encode .Negotiate)
          (env.sendOk (bitcode_encode .Negotiate))])
    | .closed => (.Drop, .AwaitingNegotiation .ServerNegotiation, [])
    | .empty => (.Retain, .AwaitingNegotiation .ServerNegotiation, [])
  | .AwaitingNegotiation (.ServerAwaitNegotiateResponse r) =>
    if env.clientEchoClosed then
      (.Drop, .AwaitingNegotiation (.ServerAwaitNegotiateResponse r), [])
    else
      (.Retain, .AwaitingNegotiation (.ServerAwaitNegotiateResponse r), [])
  | .AwaitingNegotiation .ClientNegotiation =>
    match env.negotiation with
    | .ok r =>
      (.Retain, .Connected r,
        [.sentNegotiate (bitcode_encode .Negotiate)
          (env.sendOk (bitcode_encode .Negotiate))])
    | .closed => (.Drop, .AwaitingNegotiation .ClientNegotiation, [])
    | .empty => (.Retain, .AwaitingNegotiation .ClientNegotiation, [])
  | .Connected r =>
    let sends := env.outbound.map (fun p => Event.sentPacket p (env.sendOk p))
    if r.routerIsEmpty && env.pubCount == 0 then
      (.Drop, .Connected r, sends)
    else
      (.Retain, .Connected r, sends)

/-- One step of the transport loop on a single peer: either an inbound
datagram (`provide_data`) or a periodic `poll`. -/
inductive Input
  | provide (payload : List Nat) (env : DataEnv)
  | pollStep (env : PollEnv)

/-- The state after one step, ignoring verdict and events; `none` models a
panic. -/
def stepState (s : PeerStateMachine) : Input → Option PeerStateMachine
  | .provide p e => (provide_data s p e).map (fun x => x.2.1)
  | .pollStep e => some (poll s e).2.1

/-- The state after a sequence of steps. -/
def run (s : PeerStateMachine) : List Input → Option PeerStateMachine
  | [] => some s
  | i :: rest =>
    match stepState s i with
    | some t => run t rest
    | none => none

/-- The initial state of a server-role peer: `AwaitingNegotiation` in the
`ServerNegotiation` sub-state. -/
def serverStart : PeerStateMachine :=
  .AwaitingNegotiation .ServerNegotiation

/-- The payload interpretations under which the current phase reads an
inbound datagram as `Disconnect`: the `Connected` phase strips the
trailing channel byte (which must be 0) and decodes the rest, every other
phase decodes the whole payload. -/
def disconnectPayload : PeerStateMachine → List Nat → Bool
  | .Connected _, p =>
    (p.getLast? == some 0) && (bitcode_decode p.dropLast == some .Disconnect)
  | _, p => bitcode_decode p == some .Disconnect

/-! ### Concrete environments used by witnesses -/

/-- An environment in which every one-shot counterpart is alive and every
publisher is live. -/
def envAlive : DataEnv := DataEnv.mk false false (fun _ => true)

/-- An environment in which every one-shot counterpart is gone and every
publisher is dead. -/
def envDead : DataEnv := DataEnv.mk true true (fun _ => false)

/-- A poll environment whose negotiation one-shot has yielded the given
mapping, with nothing buffered and a transport that accepts every send. -/
def pollEnvOk (m : Router) : PollEnv :=
  PollEnv.mk false (.ok m) false [] 0 (fun _ => true)

/-! ### Helper lemmas -/

theorem lookup_erase_self (r : Router) (c : Nat) :
    Router.lookup (Router.erase r c) c = none := by
  induction r with
  | nil => rfl
  | cons e rest ih =>
    by_cases h : e.1 = c
    · simpa [Router.erase, List.filter_cons, h] using ih
    · simpa [Router.erase, List.filter_cons, h, Router.lookup] using ih

theorem poll_connected_state (r : Router) (e : PollEnv) :
    (poll (.Connected r) e).2.1 = .Connected r := by
  simp only [poll]
  split <;> rfl

theorem provide_data_connected_stays (r : Router) (p : List Nat) (e : DataEnv)
    (res : Retention × PeerStateMachine × List Event)
    (h : provide_data (.Connected r) p e = some res) :
    ∃ r2, res.2.1 = .Connected r2 := by
  simp only [provide_data] at h
  split at h
  · exact absurd h (by simp)
  · split at h
    · split at h <;> (cases h; exact ⟨r, rfl⟩)
    · split at h
      · split at h
        · cases h; exact ⟨r, rfl⟩
        · cases h; exact ⟨_, rfl⟩
      · cases h; exact ⟨r, rfl⟩

/-! ### Claim theorems -/

/-- Claim C3 (code bug): `provide_data` is **not** total.  In the
`Connected` phase the extraction of the trailing channel byte is
`data.last().unwrap()` (`peer.rs` line 160), which panics on an empty
payload — modelled here by `none`.  On every nonempty payload, and in
every other phase, `provide_data` does return a verdict. -/
theorem provide_data_panics_on_empty_connected_payload :
    (∀ (r : Router) (env : DataEnv), provide_data (.Connected r) [] env = none) ∧
    (∀ (s : PeerStateMachine) (p : List Nat) (b : Nat) (env : DataEnv),
      (provide_data s (p ++ [b]) env).isSome = true) ∧
    (∀ (req : AwaitingNegotiationReq) (p : List Nat) (env : DataEnv),
      (provide_data .Connecting p env).isSome = true ∧
      (provide_data (.AwaitingNegotiation req) p env).isSome = true) := by
  refine ⟨fun r env => rfl, ?_, ?_⟩
  · intro s p b env
    cases s with
    | Connecting =>
      rcases hd : bitcode_decode (p ++ [b]) with _ | m
      · simp [provide_data, hd]
      · cases m <;> simp [provide_data, hd] <;> split <;> simp
    | AwaitingNegotiation req =>
      rcases hd : bitcode_decode (p ++ [b]) with _ | m
      · simp [provide_data, hd]
      · cases m <;> cases req <;> simp [provide_data, hd] <;> split <;> simp
    | Connected r =>
      have h1 : (p ++ [b]).getLast? = some b := by simp
      simp only [provide_data, h1]
      by_cases hb : b = 0
      · rcases hd : bitcode_decode (p ++ [b]).dropLast with _ | m
        · simp [hb, hd]
        · cases m <;> simp [hb, hd]
      · rcases hl : r.lookup b with _ | pid
        · simp [hb, hl]
        · by_cases hv : env.valid pid = true <;> simp [hb, hl, hv]
  · intro req p env
    constructor
    · rcases hd : bitcode_decode p with _ | m
      · simp [provide_data, hd]
      · cases m <;> simp [provide_data, hd] <;> split <;> simp
    · rcases hd : bitcode_decode p with _ | m
      · simp [provide_data, hd]
      · cases m <;> cases req <;> simp [provide_data, hd] <;> split <;> simp

/-- Claim C4: whenever the current phase reads the inbound payload as a
`Disconnect` control message, `provide_data` returns `Drop`, leaves the
state exactly as it was, and performs no side effect at all. -/
theorem disconnect_is_terminal_no_side_effects
    (s : PeerStateMachine) (p : List Nat) (env : DataEnv)
    (h : disconnectPayload s p = true) :
    provide_data s p env = some (.Drop, s, []) := by
  cases s with
  | Connecting =>
    simp only [disconnectPayload, beq_iff_eq] at h
    simp [provide_data, h]
  | AwaitingNegotiation req =>
    simp only [disconnectPayload, beq_iff_eq] at h
    simp [provide_data, h]
  | Connected r =>
    simp only [disconnectPayload, Bool.and_eq_true, beq_iff_eq] at h
    obtain ⟨h1, h2⟩ := h
    simp [provide_data, h1, h2]

/-- Witness for C4: a `Disconnect` payload in the `Connecting` phase. -/
theorem disconnect_is_terminal_no_side_effects_witness :
    disconnectPayload .Connecting [2] = true ∧
    provide_data .Connecting [2] envAlive = some (.Drop, .Connecting, []) :=
  ⟨by decide, disconnect_is_terminal_no_side_effects .Connecting [2] envAlive (by decide)⟩

/-- Claim C5: `poll` in the `Connected` phase hands every currently
buffered outbound packet to the transport (in order, and a transport
failure neither stops the loop nor changes the verdict), stays in
`Connected` with the same router, and returns `Drop` exactly when the
router mapping is empty and the outbound producer count is zero. -/
theorem connected_poll_drain_and_teardown (r : Router) (env : PollEnv) :
    (poll (.Connected r) env).2.2
        = env.outbound.map (fun p => Event.sentPacket p (env.sendOk p)) ∧
    (poll (.Connected r) env).2.1 = .Connected r ∧
    ((poll (.Connected r) env).1 = .Drop ↔
      (r.routerIsEmpty = true ∧ env.pubCount = 0)) ∧
    (∀ f : List Nat → Bool,
      (poll (.Connected r)
        (PollEnv.mk env.peerSenderClosed env.negotiation env.clientEchoClosed
          env.outbound env.pubCount f)).1 = (poll (.Connected r) env).1) := by
  refine ⟨?_, ?_, ?_, ?_⟩
  · simp only [poll]; split <;> rfl
  · simp only [poll]; split <;> rfl
  · by_cases h : (r.routerIsEmpty && env.pubCount == 0) = true
    · simp only [Bool.and_eq_true, beq_iff_eq] at h
      simp [poll, h]
    · simp only [Bool.and_eq_true, beq_iff_eq] at h
      by_cases h1 : r.routerIsEmpty = true
      · have h2 : ¬ env.pubCount = 0 := fun hc => h ⟨h1, hc⟩
        simp [poll, h1, h2]
      · simp [poll, h1]
  · intro f
    simp only [poll]
    split <;> rfl

/-- Claim C6: in every pre-`Connected` state, `poll` returns `Drop`
exactly when the one-shot counterpart relevant to that state has been
given up: the peer-handle receiver in `Connecting`, the negotiation sender
in `ServerNegotiation` and `ClientNegotiation`, and the client-echo
receiver in `ServerAwaitNegotiateResponse`; otherwise it returns
`Retain`. -/
theorem poll_drop_iff_oneshot_abandoned (env : PollEnv) (m : Router) :
    ((poll .Connecting env).1 = .Drop ↔ env.peerSenderClosed = true) ∧
    ((poll serverStart env).1 = .Drop ↔ env.negotiation = .closed) ∧
    ((poll (.AwaitingNegotiation (.ServerAwaitNegotiateResponse m)) env).1 = .Drop
        ↔ env.clientEchoClosed = true) ∧
    ((poll (.AwaitingNegotiation .ClientNegotiation) env).1 = .Drop
        ↔ env.negotiation = .closed) := by
  refine ⟨?_, ?_, ?_, ?_⟩
  · cases h : env.peerSenderClosed <;> simp [poll, h]
  · cases h : env.negotiation <;> simp [serverStart, poll, h]
  · cases h : env.clientEchoClosed <;> simp [poll, h]
  · cases h : env.negotiation <;> simp [poll, h]

/-- Claim C7: a registered channel whose liveness check reports false is
removed by the first routing attempt, without its setter being invoked and
without the bytes being delivered; after the removal the channel is absent
from the router, and every later routing attempt on it finds no entry and
leaves the router unchanged (the unrecognized-channel error path). -/
theorem dead_channel_removed_exactly_once
    (r : Router) (c pid : Nat) (env env2 : DataEnv) (body body2 : List Nat)
    (hc : c ≠ 0) (hl : r.lookup c = some pid) (hv : env.valid pid = false) :
    provide_data (.Connected r) (body ++ [c]) env
        = some (.Retain, .Connected (r.erase c), []) ∧
    (r.erase c).lookup c = none ∧
    provide_data (.Connected (r.erase c)) (body2 ++ [c]) env2
        = some (.Retain, .Connected (r.erase c), []) := by
  have h1 : (body ++ [c]).getLast? = some c := by simp
  have h2 : (body2 ++ [c]).getLast? = some c := by simp
  refine ⟨?_, lookup_erase_self r c, ?_⟩
  · simp [provide_data, h1, hc, hl, hv]
  · simp [provide_data, h2, hc, lookup_erase_self r c]

/-- Witness for C7: router `[(1, 7)]`, channel 1 dead. -/
theorem dead_channel_removed_exactly_once_witness :
    (1 : Nat) ≠ 0 ∧ Router.lookup [(1, 7)] 1 = some 7 ∧
    envDead.valid 7 = false ∧
    provide_data (.Connected [(1, 7)]) ([5] ++ [1]) envDead
        = some (.Retain, .Connected (Router.erase [(1, 7)] 1), []) ∧
    (Router.erase [(1, 7)] 1).lookup 1 = none ∧
    provide_data (.Connected (Router.erase [(1, 7)] 1)) ([6] ++ [1]) envDead
        = some (.Retain, .Connected (Router.erase [(1, 7)] 1), []) := by
  have h := dead_channel_removed_exactly_once [(1, 7)] 1 7 envDead envDead [5] [6]
    (by decide) (by decide) rfl
  exact ⟨by decide, by decide, rfl, h.1, h.2.1, h.2.2⟩

/-- Claim C8: in the `Connected` phase, a datagram on a nonzero channel
with no router entry is discarded: the router is left exactly unchanged,
no sink is invoked, and the verdict is `Retain`. -/
theorem unregistered_channel_noop
    (r : Router) (c : Nat) (env : DataEnv) (body : List Nat)
    (hc : c ≠ 0) (hl : r.lookup c = none) :
    provide_data (.Connected r) (body ++ [c]) env
        = some (.Retain, .Connected r, []) := by
  have h1 : (body ++ [c]).getLast? = some c := by simp
  simp [provide_data, h1, hc, hl]

/-- Witness for C8: empty router, channel 3. -/
theorem unregistered_channel_noop_witness :
    (3 : Nat) ≠ 0 ∧ Router.lookup [] 3 = none ∧
    provide_data (.Connected []) ([9] ++ [3]) envAlive
        = some (.Retain, .Connected [], []) :=
  ⟨by decide, by decide,
    unregistered_channel_noop [] 3 envAlive [9] (by decide) (by decide)⟩

/-- Claim C9: a `Negotiate` received in `Connecting` while the
application receiver of the peer handle is already gone returns `Drop`,
but the state has nevertheless been replaced by `AwaitingNegotiation` in
the `ClientNegotiation` sub-state before the failing handle send. -/
theorem connecting_negotiate_transition_committed_before_send
    (p : List Nat) (env : DataEnv)
    (hp : bitcode_decode p = some .Negotiate) (hc : env.peerSenderClosed = true) :
    provide_data .Connecting p env
        = some (.Drop, .AwaitingNegotiation .ClientNegotiation, []) := by
  simp [provide_data, hp, hc]

/-- Witness for C9: the bare `Negotiate` encoding with a dead
peer-handle receiver. -/
theorem connecting_negotiate_transition_committed_before_send_witness :
    bitcode_decode [0] = some .Negotiate ∧ envDead.peerSenderClosed = true ∧
    provide_data .Connecting [0] envDead
        = some (.Drop, .AwaitingNegotiation .ClientNegotiation, []) :=
  ⟨by decide, rfl,
    connecting_negotiate_transition_committed_before_send [0] envDead (by decide) rfl⟩

/-- Claim C10: application data can never kill a `Connected` peer.  A
payload whose trailing byte is nonzero always yields `Retain`; a
(non-panicking) `provide_data` call in `Connected` yields `Drop` exactly
when the payload is a channel-0 `Disconnect`; and no such call ever
leaves the `Connected` phase. -/
theorem connected_application_data_never_drops
    (r : Router) (p : List Nat) (c : Nat) (env : DataEnv) :
    (c ≠ 0 → ∃ r2 evs, provide_data (.Connected r) (p ++ [c]) env
        = some (.Retain, .Connected r2, evs)) ∧
    (∀ res, provide_data (.Connected r) p env = some res →
      ((res.1 = .Drop) ↔
        (p.getLast? = some 0 ∧ bitcode_decode p.dropLast = some .Disconnect))) ∧
    (∀ res, provide_data (.Connected r) p env = some res →
      ∃ r2, res.2.1 = .Connected r2) := by
  refine ⟨?_, ?_, fun res h => provide_data_connected_stays r p env res h⟩
  · intro hc
    have h1 : (p ++ [c]).getLast? = some c := by simp
    rcases hl : r.lookup c with _ | pid
    · exact ⟨r, [], by simp [provide_data, h1, hc, hl]⟩
    · by_cases hv : env.valid pid = true
      · exact ⟨r, [.setterInvoked pid p], by
          have h2 : (p ++ [c]).dropLast = p := by simp
          simp [provide_data, h1, h2, hc, hl, hv]⟩
      · exact ⟨r.erase c, [], by
          simp [provide_data, h1, hc, hl, hv]⟩
  · intro res h
    simp only [provide_data] at h
    split at h
    · exact absurd h (by simp)
    · rename_i channel hL
      by_cases hc : channel = 0
      · subst hc
        rcases hd : bitcode_decode p.dropLast with _ | m
        · simp only [if_pos rfl, hd] at h
          cases h
          simp [hL, hd]
        · cases m <;> simp only [if_pos rfl, hd] at h <;> cases h
          · simp [hL, hd]
          · simp [hL, hd]
          · simp [hL, hd]
      · simp only [if_neg hc] at h
        have hret : res.1 = .Retain := by
          rcases hl : r.lookup channel with _ | pid
          · simp only [hl] at h; cases h; rfl
          · simp only [hl] at h
            by_cases hv : env.valid pid = true
            · rw [if_pos hv] at h; cases h; rfl
            · rw [if_neg hv] at h; cases h; rfl
        rw [hret]
        constructor
        · intro hcontra; exact absurd hcontra (by simp)
        · rintro ⟨h0, -⟩
          rw [hL] at h0
          cases h0
          exact absurd rfl hc

/-- Witness for C10: channel 2 on an empty router retains; a channel-0
`Disconnect` is the one dropping payload. -/
theorem connected_application_data_never_drops_witness :
    (∃ r2 evs, provide_data (.Connected []) ([7] ++ [2]) envAlive
        = some (.Retain, .Connected r2, evs)) ∧
    ((((Retention.Drop, PeerStateMachine.Connected ([] : Router),
        ([] : List Event)).1 = Retention.Drop) ↔
      (([2, 0] : List Nat).getLast? = some 0 ∧
        bitcode_decode ([2, 0] : List Nat).dropLast = some .Disconnect))) :=
  ⟨(connected_application_data_never_drops [] [7] 2 envAlive).1 (by decide),
   (connected_application_data_never_drops [] [2, 0] 2 envAlive).2.1
     (Retention.Drop, PeerStateMachine.Connected [], []) (by decide)⟩

/-- A poll environment identical to `pollEnvOk []` but with the sender
side of the negotiation one-shot intact and no mapping yet. -/
def pollEnvEmpty : PollEnv :=
  PollEnv.mk false .empty false [] 0 (fun _ => true)

/-- Counterexample to claim C2 (uniform datagram framing).  The payload
`[2, 0]` is, under the trailing-channel-byte framing, a channel-0 datagram
whose remaining bytes decode to `Disconnect`, so under a uniform framing
`provide_data` in the `Connecting` phase would have to return `Drop`; the
code instead decodes the whole payload (which fails) and returns `Retain`.
Conversely, the `Negotiate` that `poll` emits from `ServerNegotiation` is
the bare control-message encoding: its non-trailing bytes do not decode to
any control message, so it is not a control message wrapped in the
channel-0 framing. -/
theorem uniform_framing_counterexample :
    (([2, 0] : List Nat).getLast? = some 0 ∧
      bitcode_decode ([2, 0] : List Nat).dropLast = some .Disconnect ∧
      provide_data .Connecting [2, 0] envAlive = some (.Retain, .Connecting, [])) ∧
    ((poll serverStart (pollEnvOk [])).2.2
        = [.sentNegotiate (bitcode_encode .Negotiate) true] ∧
      bitcode_decode (bitcode_encode SpecialMessage.Negotiate).dropLast = none) := by
  refine ⟨⟨by decide, by decide, rfl⟩, ⟨rfl, by decide⟩⟩

/-- Claim C2 (amended): the trailing-channel-byte framing governs the
`Connected` phase only.  There, `provide_data` strips the last byte: 0
routes the remaining bytes to the control-message decoder, a nonzero byte
routes exactly the remaining bytes to that channel.  In `Connecting` and
`AwaitingNegotiation` the entire payload is decoded as a control message,
and the `Negotiate` emitted during `poll` (from `ServerNegotiation` and
from `ClientNegotiation` alike) is the bare encoding with no trailing
channel byte appended. -/
theorem framing_connected_only
    (r : Router) (body p : List Nat) (c : Nat) (env : DataEnv)
    (penv : PollEnv) (m : Router) (s : PeerStateMachine) :
    (∀ pid, c ≠ 0 → r.lookup c = some pid → env.valid pid = true →
      provide_data (.Connected r) (body ++ [c]) env
        = some (.Retain, .Connected r, [.setterInvoked pid body])) ∧
    (bitcode_decode body = some .Disconnect →
      provide_data (.Connected r) (body ++ [0]) env
        = some (.Drop, .Connected r, [])) ∧
    ((∀ rr, s ≠ .Connected rr) → bitcode_decode p = some .Disconnect →
      provide_data s p env = some (.Drop, s, [])) ∧
    (penv.negotiation = .ok m →
      (poll serverStart penv).2.2
        = [.sentNegotiate (bitcode_encode .Negotiate)
            (penv.sendOk (bitcode_encode .Negotiate))] ∧
      (poll (.AwaitingNegotiation .ClientNegotiation) penv).2.2
        = [.sentNegotiate (bitcode_encode .Negotiate)
            (penv.sendOk (bitcode_encode .Negotiate))]) := by
  refine ⟨?_, ?_, ?_, ?_⟩
  · intro pid hc hl hv
    have h1 : (body ++ [c]).getLast? = some c := by simp
    have h2 : (body ++ [c]).dropLast = body := by simp
    simp [provide_data, h1, h2, hc, hl, hv]
  · intro hd
    have h1 : (body ++ [0]).getLast? = some 0 := by simp
    have h2 : (body ++ [0]).dropLast = body := by simp
    simp [provide_data, h1, h2, hd]
  · intro hs hd
    cases s with
    | Connecting => simp [provide_data, hd]
    | AwaitingNegotiation req => simp [provide_data, hd]
    | Connected rr => exact absurd rfl (hs rr)
  · intro hm
    exact ⟨by simp [serverStart, poll, hm], by simp [poll, hm]⟩

/-- Witness for the amended C2, at router `[(4, 8)]`, channel 4,
body `[9]`. -/
theorem framing_connected_only_witness :
    provide_data (.Connected [(4, 8)]) ([9] ++ [4]) envAlive
        = some (.Retain, .Connected [(4, 8)], [.setterInvoked 8 [9]]) ∧
    provide_data (.Connected [(4, 8)]) ([2] ++ [0]) envAlive
        = some (.Drop, .Connected [(4, 8)], []) ∧
    provide_data .Connecting [2] envAlive = some (.Drop, .Connecting, []) ∧
    (poll serverStart (pollEnvOk [])).2.2
        = [.sentNegotiate (bitcode_encode .Negotiate)
            ((pollEnvOk []).sendOk (bitcode_encode .Negotiate))] := by
  have h := framing_connected_only [(4, 8)] [9] [2] 4 envAlive (pollEnvOk []) []
    .Connecting
  refine ⟨h.1 8 (by decide) (by decide) rfl, ?_, ?_, (h.2.2.2 rfl).1⟩
  · exact (framing_connected_only [(4, 8)] [2] [2] 4 envAlive (pollEnvOk []) []
      .Connecting).2.1 (by decide)
  · exact h.2.2.1 (fun rr h2 => by cases h2) (by decide)

/-! ### Trace lemmas for the handshake asymmetry claim -/

theorem run_append (s : PeerStateMachine) (l1 l2 : List Input) :
    run s (l1 ++ l2) = match run s l1 with
      | some t => run t l2
      | none => none := by
  induction l1 generalizing s with
  | nil => simp [run]
  | cons i rest ih =>
    simp only [List.cons_append, run]
    cases stepState s i with
    | none => rfl
    | some t => exact ih t

theorem stepState_connected (r : Router) (i : Input) (t : PeerStateMachine)
    (h : stepState (.Connected r) i = some t) : ∃ r2, t = .Connected r2 := by
  cases i with
  | provide p e =>
    simp only [stepState, Option.map_eq_some'] at h
    obtain ⟨res, hres, ht⟩ := h
    obtain ⟨r2, h2⟩ := provide_data_connected_stays r p e res hres
    exact ⟨r2, by rw [← ht, h2]⟩
  | pollStep e =>
    simp only [stepState, Option.some_inj] at h
    exact ⟨r, by rw [← h, poll_connected_state]⟩

theorem stepState_serverNeg (i : Input) (t : PeerStateMachine)
    (h : stepState serverStart i = some t) :
    t = serverStart ∨
    ∃ e m, i = .pollStep e ∧ e.negotiation = .ok m ∧
      t = .AwaitingNegotiation (.ServerAwaitNegotiateResponse m) := by
  cases i with
  | provide p e =>
    left
    simp only [stepState, serverStart, Option.map_eq_some'] at h ⊢
    obtain ⟨res, hres, ht⟩ := h
    rcases hd : bitcode_decode p with _ | m
    · simp only [provide_data, hd] at hres; cases hres; rw [← ht]
    · cases m <;> simp only [provide_data, hd] at hres
      · cases hres; rw [← ht]
      · cases hres; rw [← ht]
      · cases hres; rw [← ht]
  | pollStep e =>
    simp only [stepState, serverStart, Option.some_inj] at h
    rcases hn : e.negotiation with m | _ | _
    · right
      refine ⟨e, m, rfl, hn, ?_⟩
      simp only [poll, hn] at h
      rw [← h]
    · left; simp only [poll, hn] at h; rw [← h, serverStart]
    · left; simp only [poll, hn] at h; rw [← h, serverStart]

theorem stepState_sares (m : Router) (i : Input) (t : PeerStateMachine)
    (h : stepState (.AwaitingNegotiation (.ServerAwaitNegotiateResponse m)) i
          = some t) :
    t = .AwaitingNegotiation (.ServerAwaitNegotiateResponse m) ∨
    ∃ p e, i = .provide p e ∧ bitcode_decode p = some .Negotiate ∧
      t = .Connected m := by
  cases i with
  | provide p e =>
    simp only [stepState, Option.map_eq_some'] at h
    obtain ⟨res, hres, ht⟩ := h
    rcases hd : bitcode_decode p with _ | msg
    · left; simp only [provide_data, hd] at hres; cases hres; rw [← ht]
    · cases msg <;> simp only [provide_data, hd] at hres
      · by_cases hc : e.clientEchoClosed = true
        · left; rw [if_pos hc] at hres; cases hres; rw [← ht]
        · right
          rw [if_neg hc] at hres; cases hres
          exact ⟨p, e, rfl, hd, by rw [← ht]⟩
      · by_cases hc : e.clientEchoClosed = true
        · left; rw [if_pos hc] at hres; cases hres; rw [← ht]
        · left; rw [if_neg hc] at hres; cases hres; rw [← ht]
      · left; cases hres; rw [← ht]
  | pollStep e =>
    left
    simp only [stepState, Option.some_inj] at h
    by_cases hc : e.clientEchoClosed = true
    · simp only [poll, if_pos hc] at h; rw [← h]
    · simp only [poll, if_neg hc] at h; rw [← h]

/-- The states a server-role peer can occupy. -/
def serverSide (s : PeerStateMachine) : Prop :=
  s = serverStart ∨
  (∃ m, s = .AwaitingNegotiation (.ServerAwaitNegotiateResponse m)) ∨
  (∃ r, s = .Connected r)

theorem stepState_serverSide (s t : PeerStateMachine) (i : Input)
    (hs : serverSide s) (h : stepState s i = some t) : serverSide t := by
  rcases hs with hs | ⟨m, hs⟩ | ⟨r, hs⟩
  · subst hs
    rcases stepState_serverNeg i t h with h1 | ⟨e, m, _, _, h1⟩
    · exact Or.inl h1
    · exact Or.inr (Or.inl ⟨m, h1⟩)
  · subst hs
    rcases stepState_sares m i t h with h1 | ⟨p, e, _, _, h1⟩
    · exact Or.inr (Or.inl ⟨m, h1⟩)
    · exact Or.inr (Or.inr ⟨m, h1⟩)
  · subst hs
    obtain ⟨r2, h1⟩ := stepState_connected r i t h
    exact Or.inr (Or.inr ⟨r2, h1⟩)

theorem run_serverSide (inputs : List Input) (s t : PeerStateMachine)
    (hs : serverSide s) (h : run s inputs = some t) : serverSide t := by
  induction inputs generalizing s with
  | nil => simp only [run, Option.some_inj] at h; rw [← h]; exact hs
  | cons i rest ih =>
    simp only [run] at h
    rcases hstep : stepState s i with _ | u
    · rw [hstep] at h; cases h
    · rw [hstep] at h
      exact ih u (stepState_serverSide s u i hs hstep) h

theorem sares_entered_via_poll (inputs : List Input) (m : Router)
    (h : run serverStart inputs
          = some (.AwaitingNegotiation (.ServerAwaitNegotiateResponse m))) :
    ∃ i, i < inputs.length ∧
      run serverStart (inputs.take i) = some serverStart ∧
      ∃ e m0, inputs[i]? = some (.pollStep e) ∧ e.negotiation = .ok m0 := by
  induction inputs using List.reverseRecOn generalizing m with
  | nil =>
    simp only [run, Option.some_inj, serverStart] at h
    cases h
  | append_singleton l a ih =>
    rw [run_append] at h
    rcases hl : run serverStart l with _ | sl
    · rw [hl] at h; cases h
    · rw [hl] at h
      have hstep : stepState sl a = some
          (.AwaitingNegotiation (.ServerAwaitNegotiateResponse m)) := by
        simp only [run] at h
        rcases hs : stepState sl a with _ | u
        · rw [hs] at h; cases h
        · rw [hs] at h; simp only [run, Option.some_inj] at h; rw [h]
      rcases run_serverSide l serverStart sl (Or.inl rfl) hl
        with hsl | ⟨m1, hsl⟩ | ⟨r0, hsl⟩
      · subst hsl
        rcases stepState_serverNeg a _ hstep with h1 | ⟨e, m0, ha, hok, h1⟩
        · exact absurd h1 (by simp [serverStart])
        · refine ⟨l.length, by simp, ?_, e, m0, ?_, hok⟩
          · rw [List.take_left l [a]]; exact hl
          · rw [ha]; simp
      · subst hsl
        obtain ⟨i, hi, hrun, e, m0, hidx, hok⟩ := ih m1 hl
        have hlen : i < (l ++ [a]).length := by
          simp only [List.length_append, List.length_cons, List.length_nil]
          omega
        refine ⟨i, hlen, ?_, e, m0, ?_, hok⟩
        · rw [List.take_append_of_le_length (Nat.le_of_lt hi)]; exact hrun
        · rw [List.getElem?_append_left hi]; exact hidx
      · subst hsl
        obtain ⟨r2, h1⟩ := stepState_connected r0 a _ hstep
        exact absurd h1 (by simp)

/-- Claim C1: handshake asymmetry.  A peer started in the server role
reaches `Connected` only if, earlier in its run, a `poll` observed the
negotiation one-shot yield a mapping while in `ServerNegotiation`, and a
later `provide_data` received a `Negotiate` while in
`ServerAwaitNegotiateResponse`.  A peer in `ClientNegotiation` moves to
`Connected` on the very `poll` whose negotiation probe yields the mapping,
without any further inbound message. -/
theorem handshake_asymmetry :
    (∀ (inputs : List Input) (r : Router),
      run serverStart inputs = some (.Connected r) →
      ∃ i j, i < j ∧ j < inputs.length ∧
        run serverStart (inputs.take i) = some serverStart ∧
        (∃ e m, inputs[i]? = some (.pollStep e) ∧ e.negotiation = .ok m) ∧
        (∃ m2, run serverStart (inputs.take j)
            = some (.AwaitingNegotiation (.ServerAwaitNegotiateResponse m2))) ∧
        (∃ p e, inputs[j]? = some (.provide p e) ∧
          bitcode_decode p = some .Negotiate)) ∧
    (∀ (e : PollEnv) (m : Router), e.negotiation = .ok m →
      poll (.AwaitingNegotiation .ClientNegotiation) e
        = (.Retain, .Connected m,
           [.sentNegotiate (bitcode_encode .Negotiate)
             (e.sendOk (bitcode_encode .Negotiate))])) := by
  constructor
  · intro inputs
    induction inputs using List.reverseRecOn with
    | nil =>
      intro r h
      simp only [run, Option.some_inj, serverStart] at h
      cases h
    | append_singleton l a ih =>
      intro r h
      rw [run_append] at h
      rcases hl : run serverStart l with _ | sl
      · rw [hl] at h; cases h
      · rw [hl] at h
        have hstep : stepState sl a = some (.Connected r) := by
          simp only [run] at h
          rcases hs : stepState sl a with _ | u
          · rw [hs] at h; cases h
          · rw [hs] at h; simp only [run, Option.some_inj] at h; rw [h]
        rcases run_serverSide l serverStart sl (Or.inl rfl) hl
          with hsl | ⟨m1, hsl⟩ | ⟨r0, hsl⟩
        · subst hsl
          rcases stepState_serverNeg a _ hstep with h1 | ⟨e, m0, _, _, h1⟩
          · exact absurd h1 (by simp [serverStart])
          · exact absurd h1 (by simp)
        · subst hsl
          rcases stepState_sares m1 a _ hstep with h1 | ⟨p, e, ha, hd, -⟩
          · exact absurd h1 (by simp)
          · obtain ⟨i, hi, hrun, e0, m0, hidx, hok⟩ :=
              sares_entered_via_poll l m1 hl
            refine ⟨i, l.length, hi, by simp, ?_, ⟨e0, m0, ?_, hok⟩,
              ⟨m1, ?_⟩, p, e, ?_, hd⟩
            · rw [List.take_append_of_le_length (Nat.le_of_lt hi)]; exact hrun
            · rw [List.getElem?_append_left hi]; exact hidx
            · rw [List.take_left l [a]]; exact hl
            · rw [ha]; simp
        · subst hsl
          obtain ⟨i, j, hij, hj, hrun1, hidx1, hrun2, hidx2⟩ := ih r0 hl
          have hlen : j < (l ++ [a]).length := by
            simp only [List.length_append, List.length_cons, List.length_nil]
            omega
          refine ⟨i, j, hij, hlen, ?_, ?_, ?_, ?_⟩
          · rw [List.take_append_of_le_length
              (Nat.le_of_lt (Nat.lt_of_lt_of_le hij (Nat.le_of_lt hj)))]
            exact hrun1
          · rw [List.getElem?_append_left
              (Nat.lt_of_lt_of_le hij (Nat.le_of_lt hj))]
            exact hidx1
          · rw [List.take_append_of_le_length (Nat.le_of_lt hj)]; exact hrun2
          · rw [List.getElem?_append_left hj]; exact hidx2
  · intro e m hm
    simp [poll, hm]

/-- A two-step server-role demonstration run: a `poll` that observes the
mapping `[(1, 5)]`, then a `Negotiate` datagram. -/
def demoInputs : List Input :=
  [.pollStep (pollEnvOk [(1, 5)]), .provide [0] envAlive]

/-- Witness for C1, on the two-step run `demoInputs`. -/
theorem handshake_asymmetry_witness :
    (run serverStart demoInputs = some (.Connected [(1, 5)]) ∧
      ∃ i j, i < j ∧ j < demoInputs.length ∧
        run serverStart (demoInputs.take i) = some serverStart ∧
        (∃ e m, demoInputs[i]? = some (.pollStep e) ∧ e.negotiation = .ok m) ∧
        (∃ m2, run serverStart (demoInputs.take j)
            = some (.AwaitingNegotiation (.ServerAwaitNegotiateResponse m2))) ∧
        (∃ p e, demoInputs[j]? = some (.provide p e) ∧
          bitcode_decode p = some .Negotiate)) ∧
    ((pollEnvOk [(1, 5)]).negotiation = .ok [(1, 5)] ∧
      poll (.AwaitingNegotiation .ClientNegotiation) (pollEnvOk [(1, 5)])
        = (.Retain, .Connected [(1, 5)],
           [.sentNegotiate (bitcode_encode .Negotiate)
             ((pollEnvOk [(1, 5)]).sendOk (bitcode_encode .Negotiate))])) :=
  ⟨⟨rfl, handshake_asymmetry.1 demoInputs [(1, 5)] rfl⟩,
   ⟨rfl, handshake_asymmetry.2 (pollEnvOk [(1, 5)]) [(1, 5)] rfl⟩⟩
